import Mathlib

/-!
Shallow embedding of the core of the Algorithmic-Trading-System repository:
the three signal generators (`src/strategies/mean_reversion.py`,
`src/strategies/momentum.py`, `src/strategies/pairs_trading.py`), the
backtest engine (`src/backtesting/engine.py`) and the risk metrics
(`src/risk/metrics.py`).

Numbers are embedded as exact rationals together with the IEEE-754 special
values that the pandas/numpy pipeline can produce: `PVal` is either a finite
rational, `nan`, `inf` or `ninf`, with the usual float arithmetic rules
(comparisons against `nan` are false, `0 * nan = nan`, division of a nonzero
finite value by zero gives a signed infinity, and so on).  Square roots are
embedded by `ratSqrt`, a dyadic rational approximation that is exact on
perfect squares of rationals; all concrete inputs used below only take square
roots of perfect squares (or of constants whose exact value provably does not
matter), so the approximation is never load bearing.

The attribute line below restores the default reducibility of the four
rational operations that Batteries marks irreducible, so that closed
computations can be settled by `decide`; the kernel ignores reducibility
attributes, hence proofs are unaffected.
-/

set_option maxRecDepth 1000000
set_option maxHeartbeats 64000000

attribute [local semireducible] Rat.add Rat.mul Rat.sub Rat.inv

namespace Trading

/-- Values flowing through the pandas pipeline: a finite rational or one of
the IEEE-754 special values produced by float arithmetic. -/
inductive PVal where
  | fin (q : ℚ)
  | nan
  | inf
  | ninf
deriving DecidableEq, Repr

namespace PVal

/-- True exactly for finite (ordinary rational) values. -/
def isFin : PVal → Bool
  | fin _ => true
  | _ => false

/-- IEEE negation. -/
def neg : PVal → PVal
  | fin q => fin (-q)
  | nan => nan
  | inf => ninf
  | ninf => inf

/-- IEEE addition: `nan` absorbs, `inf + ninf = nan`. -/
def add : PVal → PVal → PVal
  | nan, _ => nan
  | _, nan => nan
  | fin a, fin b => fin (a + b)
  | fin _, inf => inf
  | fin _, ninf => ninf
  | inf, fin _ => inf
  | ninf, fin _ => ninf
  | inf, inf => inf
  | ninf, ninf => ninf
  | inf, ninf => nan
  | ninf, inf => nan

/-- IEEE subtraction, defined as `a + (-b)`. -/
def sub (a b : PVal) : PVal := add a (neg b)

/-- IEEE multiplication: `0 * inf = nan`, signs of infinities multiply. -/
def mul : PVal → PVal → PVal
  | nan, _ => nan
  | _, nan => nan
  | fin a, fin b => fin (a * b)
  | fin a, inf => if a = 0 then nan else if 0 < a then inf else ninf
  | fin a, ninf => if a = 0 then nan else if 0 < a then ninf else inf
  | inf, fin b => if b = 0 then nan else if 0 < b then inf else ninf
  | ninf, fin b => if b = 0 then nan else if 0 < b then ninf else inf
  | inf, inf => inf
  | ninf, ninf => inf
  | inf, ninf => ninf
  | ninf, inf => ninf

/-- Quotient of two rationals with the IEEE zero-denominator rules:
`0/0 = nan`, `a/0 = ±inf` for nonzero `a`. -/
def qdiv (a b : ℚ) : PVal :=
  if b = 0 then (if a = 0 then nan else if 0 < a then inf else ninf)
  else fin (a / b)

/-- IEEE division. -/
def div : PVal → PVal → PVal
  | nan, _ => nan
  | _, nan => nan
  | fin a, fin b => qdiv a b
  | fin _, inf => fin 0
  | fin _, ninf => fin 0
  | inf, fin b => if 0 ≤ b then inf else ninf
  | ninf, fin b => if 0 ≤ b then ninf else inf
  | inf, inf => nan
  | inf, ninf => nan
  | ninf, inf => nan
  | ninf, ninf => nan

/-- Absolute value on rationals, by cases (kept separate from the lattice
operations of mathlib so that it evaluates by `decide`). -/
def qabs (q : ℚ) : ℚ := if q < 0 then -q else q

/-- IEEE absolute value. -/
def abs : PVal → PVal
  | fin q => fin (qabs q)
  | nan => nan
  | inf => inf
  | ninf => inf

/-- Strict comparison as a Bool; any comparison involving `nan` is false. -/
def ltb : PVal → PVal → Bool
  | fin a, fin b => decide (a < b)
  | fin _, inf => true
  | ninf, fin _ => true
  | ninf, inf => true
  | _, _ => false

/-- Non-strict comparison as a Bool; any comparison involving `nan` is
false. -/
def leb : PVal → PVal → Bool
  | fin a, fin b => decide (a ≤ b)
  | fin _, inf => true
  | ninf, fin _ => true
  | ninf, inf => true
  | inf, inf => true
  | ninf, ninf => true
  | _, _ => false

/-- The semantics of `np.minimum`: `nan` propagates, otherwise the order
minimum. -/
def minPV : PVal → PVal → PVal
  | nan, _ => nan
  | _, nan => nan
  | a, b => if ltb b a then b else a

/-- Binary maximum ignoring neither argument (both assumed non-`nan` by the
callers that use it for `cummax`). -/
def maxPV (a b : PVal) : PVal := if ltb a b then b else a

end PVal

/-- Fuel-driven integer square root (round toward zero), kernel reducible.
The recursion `n ↦ n / 4` terminates long before the fuel runs out. -/
def nsqrtFuel : ℕ → ℕ → ℕ
  | 0, _ => 0
  | fuel+1, n =>
    if n = 0 then 0 else
      let r := 2 * nsqrtFuel fuel (n / 4)
      if (r+1)*(r+1) ≤ n then r+1 else r

/-- Integer square root, rounded toward zero. -/
def nsqrt (n : ℕ) : ℕ := nsqrtFuel (n+1) n

/-- Dyadic rational approximation of the floating-point square root of a
nonnegative rational, exact whenever the argument is the square of a
rational.  Writing `q = n / d`, we have `sqrt q = sqrt (n * d) / d` and the
integer square root of `n * d * 4 ^ 32` supplies 32 extra binary digits. -/
def ratSqrt (q : ℚ) : ℚ :=
  (nsqrt (q.num.toNat * q.den * 4 ^ 32) : ℚ) / ((q.den : ℚ) * 2 ^ 32)

/-- The square root of a `PVal`, `nan` on negative inputs as in numpy. -/
def PVal.sqrt : PVal → PVal
  | PVal.fin q => if q < 0 then PVal.nan else PVal.fin (ratSqrt q)
  | PVal.nan => PVal.nan
  | PVal.inf => PVal.inf
  | PVal.ninf => PVal.nan

/-- The exact rational value of the IEEE-754 double `np.log(2)`, used by
`calculate_half_life`. -/
def ln2F : ℚ := 6243314768165359 / 9007199254740992

/-- Floor of a rational as an integer, via flooring integer division. -/
def qfloor (q : ℚ) : ℤ := q.num.fdiv q.den

/-- Truncation toward zero, the semantics of the Python builtin `int()` on a
float. -/
def truncZ (q : ℚ) : ℤ := if 0 ≤ q then qfloor q else -(qfloor (-q))

/-- Lift a clean rational series to a `PVal` series. -/
def liftQ (l : List ℚ) : List PVal := l.map PVal.fin

/-- Pointwise combination of two aligned series. -/
def zipWithPV (f : PVal → PVal → PVal) (a b : List PVal) : List PVal :=
  List.zipWith f a b

/-- The cumulative sum of a series, as produced by `cumsum()`. -/
def cumsum (l : List ℚ) : List ℚ :=
  (List.range l.length).map (fun t => ((l.take (t+1)).sum))

/-- The series `diff().fillna(0)`: first difference with the first entry
replaced by zero. -/
def diffFill0 (l : List ℚ) : List ℚ :=
  (List.range l.length).map (fun t =>
    if t = 0 then 0 else l.getD t 0 - l.getD (t-1) 0)

/-- The series `pct_change(k)` of a clean series: undefined for the first
`k` entries, elsewhere relative change over `k` periods with the IEEE rules
when the base price is zero. -/
def pctChangeK (k : ℕ) (l : List ℚ) : List PVal :=
  (List.range l.length).map (fun t =>
    if t < k then PVal.nan
    else PVal.qdiv (l.getD t 0 - l.getD (t-k) 0) (l.getD (t-k) 0))

/-- The series `pct_change()` (one period). -/
def pctChange (l : List ℚ) : List PVal := pctChangeK 1 l

/-- The trailing window of width `w` ending at index `t` (assuming
`w ≤ t+1`). -/
def window (l : List PVal) (t w : ℕ) : List PVal := (l.take (t+1)).drop (t+1-w)

/-- Checks that a window contains only finite values and extracts them.
A rolling aggregate over a window containing a special value is undefined
(this is the pandas `min_periods = window` rule for `nan`). -/
def allFin : List PVal → Option (List ℚ)
  | [] => some []
  | PVal.fin q :: rest => (allFin rest).map (q :: ·)
  | _ :: _ => none

/-- Rolling application of an aggregate `f` over trailing windows of width
`w`: undefined while the window has not filled and on windows containing an
undefined value. -/
def rollingApply (w : ℕ) (f : List ℚ → PVal) (l : List PVal) : List PVal :=
  (List.range l.length).map (fun t =>
    if t + 1 < w then PVal.nan
    else
      match allFin (window l t w) with
      | some qs => f qs
      | none => PVal.nan)

/-- Arithmetic mean of a rational list (zero on the empty list, which no
rolling caller produces for a positive window). -/
def qmean (l : List ℚ) : ℚ := l.sum / (l.length : ℚ)

/-- Unbiased sample variance (`ddof = 1`), as used by `pandas.Series.std`. -/
def sampleVar (l : List ℚ) : ℚ :=
  ((l.map (fun x => (x - qmean l)^2)).sum) / ((l.length : ℚ) - 1)

/-- Rolling mean over windows of width `w`. -/
def rollingMean (w : ℕ) (l : List PVal) : List PVal :=
  rollingApply w (fun qs => PVal.fin (qmean qs)) l

/-- Rolling sample standard deviation over windows of width `w`; for
`w ≤ 1` the pandas result is undefined everywhere (`0/0` in the `ddof = 1`
variance). -/
def rollingStd (w : ℕ) (l : List PVal) : List PVal :=
  if w ≤ 1 then l.map (fun _ => PVal.nan)
  else rollingApply w (fun qs => PVal.fin (ratSqrt (sampleVar qs))) l

/-- Insertion of a rational into a sorted list (ascending). -/
def insertQ (a : ℚ) : List ℚ → List ℚ
  | [] => [a]
  | b :: l => if a ≤ b then a :: b :: l else b :: insertQ a l

/-- Insertion sort for rational lists. -/
def sortQ : List ℚ → List ℚ
  | [] => []
  | a :: l => insertQ a (sortQ l)

/-- The linear-interpolation quantile of numpy/pandas: with the sorted
values `v` and `h = (n-1)·p`, the result is
`v ⌊h⌋ + (h - ⌊h⌋) · (v (⌊h⌋+1) - v ⌊h⌋)`. -/
def quantileLin (p : ℚ) (l : List ℚ) : ℚ :=
  let s := sortQ l
  let h : ℚ := ((l.length : ℚ) - 1) * p
  let i : ℕ := (qfloor h).toNat
  let g : ℚ := h - (i : ℚ)
  s.getD i 0 + g * (s.getD (i+1) (s.getD i 0) - s.getD i 0)

/-- Forward fill: each undefined entry takes the last defined value before
it; leading undefined entries stay undefined. -/
def ffillGo (last : PVal) : List PVal → List PVal
  | [] => []
  | PVal.nan :: rest => last :: ffillGo last rest
  | x :: rest => x :: ffillGo x rest

/-- The series method `fillna(method='ffill')`. -/
def ffill (l : List PVal) : List PVal := ffillGo PVal.nan l

/-- The series method `fillna(0)`. -/
def fillna0 (l : List PVal) : List PVal :=
  l.map (fun x => if x = PVal.nan then PVal.fin 0 else x)

/-- The series method `dropna()`: removes `nan` entries (infinities stay). -/
def dropna (l : List PVal) : List PVal := l.filter (fun x => x ≠ PVal.nan)

/-- Sum of a `PVal` series (pandas sums after dropping `nan`). -/
def sumPV (l : List PVal) : PVal := (dropna l).foldr PVal.add (PVal.fin 0)

/-- The pandas `Series.mean()` (skips `nan`; empty mean is undefined since
`0/0 = nan`). -/
def seriesMean (l : List PVal) : PVal :=
  PVal.div (sumPV l) (PVal.fin ((dropna l).length : ℚ))

/-- The pandas `Series.std()` with `ddof = 1` (skips `nan`).  On a series
with no defined value at all pandas produces `nan` (the count of
observations does not exceed `ddof`), and the explicit guard below encodes
that; with exactly one defined value the `0/0` division already yields
`nan` by itself, and with two or more the unbiased sample deviation is
computed. -/
def seriesStd (l : List PVal) : PVal :=
  let m := seriesMean l
  let devs := (dropna l).map (fun x => PVal.mul (PVal.sub x m) (PVal.sub x m))
  if (dropna l).length = 0 then PVal.nan
  else
    PVal.sqrt (PVal.div (sumPV devs) (PVal.fin (((dropna l).length : ℚ) - 1)))

end Trading

namespace Trading

/-! ## Mean reversion strategy (`src/strategies/mean_reversion.py`) -/

/-- Construction-time parameters of `MeanReversionStrategy`. -/
structure MeanReversionStrategy where
  lookback : ℕ := 20
  entry_zscore : ℚ := 2
  exit_zscore : ℚ := 1/2

/-- The rolling z-score `(price - rolling_mean) / rolling_std` over the
lookback window. -/
def MeanReversionStrategy.calculate_zscore (s : MeanReversionStrategy)
    (prices : List ℚ) : List PVal :=
  let p := liftQ prices
  zipWithPV PVal.div
    (zipWithPV PVal.sub p (rollingMean s.lookback p))
    (rollingStd s.lookback p)

/-- The signal frame produced by `MeanReversionStrategy.generate_signals`. -/
structure MRSignals where
  price : List ℚ
  zscore : List PVal
  long_entry : List Bool
  short_entry : List Bool
  long_exit : List Bool
  short_exit : List Bool
  position : List PVal

/-- The position column after the two entry assignments: -1 on the short
mask (assigned later, hence overriding), 1 on the long mask, else the
initial 0. -/
def mrEntries (longE shortE : List Bool) (n : ℕ) : List ℚ :=
  (List.range n).map (fun t =>
    if shortE.getD t false then -1
    else if longE.getD t false then 1 else 0)

/-- One masked exit assignment: zero the rows where the exit mask holds and
the previous row of the column as it currently stands satisfies `sgn`
(the pandas `shift(1)` comparison, false on the first row). -/
def mrExit (exitMask : List Bool) (sgn : ℚ → Prop) [DecidablePred sgn]
    (q : List ℚ) (n : ℕ) : List ℚ :=
  (List.range n).map (fun t =>
    if exitMask.getD t false ∧ t ≠ 0 ∧ sgn (q.getD (t-1) 0) then 0
    else q.getD t 0)

/-- The sequence of masked assignments building the `position` column:
initialize to 0, set 1 on `long_entry`, set -1 on `short_entry`, then zero
rows where an exit mask holds and the previous row of the column (as it
stands at that point of the sequence) has the matching sign, and finally
apply `fillna(method='ffill').fillna(0)`. -/
def MeanReversionStrategy.generate_signals (s : MeanReversionStrategy)
    (prices : List ℚ) : MRSignals :=
  let n := prices.length
  let z := s.calculate_zscore prices
  let long_entry := z.map (fun v => PVal.ltb v (PVal.fin (-s.entry_zscore)))
  let short_entry := z.map (fun v => PVal.ltb (PVal.fin s.entry_zscore) v)
  let long_exit := z.map (fun v => PVal.ltb (PVal.fin (-s.exit_zscore)) v)
  let short_exit := z.map (fun v => PVal.ltb v (PVal.fin s.exit_zscore))
  let q2 := mrEntries long_entry short_entry n
  let q3 := mrExit long_exit (fun x => 0 < x) q2 n
  let q4 := mrExit short_exit (fun x => x < 0) q3 n
  ⟨prices, z, long_entry, short_entry, long_exit, short_exit,
    fillna0 (ffill (liftQ q4))⟩

/-! ## Momentum strategy (`src/strategies/momentum.py`) -/

/-- Construction-time parameters of `MomentumStrategy`. -/
structure MomentumStrategy where
  lookback : ℕ := 20
  holding_period : ℕ := 5

/-- Price momentum: percent change over the lookback window. -/
def MomentumStrategy.calculate_momentum (m : MomentumStrategy)
    (prices : List ℚ) : List PVal :=
  pctChangeK m.lookback prices

/-- The signal frame produced by `MomentumStrategy.generate_signals`. -/
structure MomSignals where
  price : List ℚ
  returns : List PVal
  momentum : List PVal
  volatility : List PVal
  vol_adjusted_momentum : List PVal
  momentum_threshold : List PVal
  signal : List ℚ
  position : List PVal

/-- Shared downstream of the momentum pipeline, parameterized by the
threshold series so that the source behavior and the spec wording can be
compared: signal is -1 where `vam < -thr` (the later masked assignment
wins), 1 where `vam > thr`, else 0; position is
`signal * min(|vam| / 2, 1)`. -/
def momentumFinish (vam thr : List PVal) : List ℚ × List PVal :=
  let n := vam.length
  let signal : List ℚ := (List.range n).map (fun t =>
    if PVal.ltb (vam.getD t PVal.nan) (PVal.neg (thr.getD t PVal.nan)) then -1
    else if PVal.ltb (thr.getD t PVal.nan) (vam.getD t PVal.nan) then 1 else 0)
  let position := List.zipWith
    (fun s v => PVal.mul (PVal.fin s)
      (PVal.minPV (PVal.div (PVal.abs v) (PVal.fin 2)) (PVal.fin 1)))
    signal vam
  (signal, position)

/-- `MomentumStrategy.generate_signals` as the source computes it: the
252-period rolling 80th-percentile threshold is taken over the raw
vol-adjusted-momentum series. -/
def MomentumStrategy.generate_signals (m : MomentumStrategy)
    (prices : List ℚ) : MomSignals :=
  let returns := pctChange prices
  let momentum := m.calculate_momentum prices
  let volatility := rollingStd m.lookback returns
  let vam := zipWithPV PVal.div momentum volatility
  let thr := rollingApply 252 (fun qs => PVal.fin (quantileLin (4/5) qs)) vam
  let fin := momentumFinish vam thr
  ⟨prices, returns, momentum, volatility, vam, thr, fin.1, fin.2⟩

/-- The momentum pipeline as the specification sentence words it: identical
except that the rolling 80th-percentile threshold is computed over the
absolute value of the vol-adjusted-momentum series. -/
def momentumSignalsSpecAbs (m : MomentumStrategy) (prices : List ℚ) :
    MomSignals :=
  let returns := pctChange prices
  let momentum := m.calculate_momentum prices
  let volatility := rollingStd m.lookback returns
  let vam := zipWithPV PVal.div momentum volatility
  let thr := rollingApply 252 (fun qs => PVal.fin (quantileLin (4/5) qs))
    (vam.map PVal.abs)
  let fin := momentumFinish vam thr
  ⟨prices, returns, momentum, volatility, vam, thr, fin.1, fin.2⟩

/-! ## Pairs trading strategy (`src/strategies/pairs_trading.py`) -/

/-- Construction-time parameters of `PairsTradingStrategy`. -/
structure PairsTradingStrategy where
  lookback : ℕ := 60
  entry_zscore : ℚ := 2
  exit_zscore : ℚ := 1/2

/-- A discovered cointegrated pair. -/
structure PairInfo where
  pair : String × String
  p_value : ℚ
  hedge_ratio : ℚ
  half_life : ℤ
deriving DecidableEq, Repr

/-- The slope of the degree-one least-squares fit `np.polyfit(x, y, 1)[0]`.
On a full-rank design this is the ordinary least-squares slope.  On a
rank-deficient design — the denominator vanishes exactly when every
abscissa equals one constant `c` — numpy does not raise: it emits a
`RankWarning` and `lstsq` returns the minimum-norm solution of the
column-scaled system, whose slope works out to `mean(y) / (2c)` when
`c ≠ 0`.  `none` marks the paths where numpy does raise and the callers'
`except` blocks catch: an empty design (`TypeError`) and an all-zero
abscissa column, whose scale normalization produces undefined entries and
makes the SVD inside `lstsq` fail (`LinAlgError`). -/
def polyfitSlope (x y : List ℚ) : Option ℚ :=
  let n : ℚ := (x.length : ℚ)
  let sx := x.sum
  let sy := y.sum
  let sxy := (List.zipWith (fun a b => a * b) x y).sum
  let sxx := (x.map (fun a => a * a)).sum
  if x.length = 0 then none
  else if n * sxx - sx * sx = 0 then
    let c := x.getD 0 0
    if c = 0 then none else some ((sy / n) / (2 * c))
  else some ((n * sxy - sx * sy) / (n * sxx - sx * sx))

/-- Mean-reversion half-life from the Ornstein-Uhlenbeck fit
`Δspread_t = β · spread_{t-1} + ε`: 30 when fewer than 2 usable points or
`β = 0` (and on the caught numerical-failure path), otherwise
`max(1, int(-log(2) / β))` with `int` truncating toward zero. -/
def PairsTradingStrategy.calculate_half_life (spread : List ℚ) : ℤ :=
  let spread_lag := spread.dropLast
  let spread_diff := List.zipWith (fun a b => a - b) (spread.drop 1)
    spread.dropLast
  if spread_lag.length < 2 then 30
  else
    match polyfitSlope spread_lag spread_diff with
    | none => 30
    | some b => if b = 0 then 30 else max 1 (truncZ (-ln2F / b))

/-- All unordered index pairs `(i, j)` with `i < j`, in loop order. -/
def pairsOf : List α → List (α × α)
  | [] => []
  | x :: xs => xs.map (fun y => (x, y)) ++ pairsOf xs

/-- One iteration of the pair scan.  The two statistical tests of
statsmodels are external collaborators and enter as oracle parameters
`coint` (cointegration p-value of the aligned series) and `adf`
(augmented-Dickey-Fuller p-value of the spread); an oracle returning `none`
models the exception path, which silently skips the pair. -/
def processPair (coint : List ℚ → List ℚ → Option ℚ)
    (adf : List ℚ → Option ℚ) (lookback : ℕ) (thr : ℚ)
    (p : (String × List ℚ) × (String × List ℚ)) : Option PairInfo :=
  let s1 := p.1.2
  let s2 := p.2.2
  if s1.isEmpty ∨ s2.isEmpty then none
  else
    let aligned := s1.zip s2
    let a1 := aligned.map Prod.fst
    let a2 := aligned.map Prod.snd
    if aligned.length < lookback then none
    else
      match coint a1 a2 with
      | none => none
      | some p_value =>
        if p_value < thr then
          match polyfitSlope a2 a1 with
          | none => none
          | some hedge_ratio =>
            let spread := List.zipWith (fun a b => a - hedge_ratio * b) a1 a2
            match adf spread with
            | none => none
            | some ap =>
              if ap < thr then
                some ⟨(p.1.1, p.2.1), p_value, hedge_ratio,
                  PairsTradingStrategy.calculate_half_life spread⟩
              else none
        else none

/-- Stable insertion into a list sorted ascending by `p_value`. -/
def insertByP (a : PairInfo) : List PairInfo → List PairInfo
  | [] => [a]
  | b :: l => if a.p_value ≤ b.p_value then a :: b :: l else b :: insertByP a l

/-- Stable sort of pairs ascending by `p_value` (the Python builtin
`sorted` with key `p_value`). -/
def sortByP : List PairInfo → List PairInfo
  | [] => []
  | a :: l => insertByP a (sortByP l)

/-- `PairsTradingStrategy.find_cointegrated_pairs`: scan all unordered
symbol pairs, keep those passing both tests below the threshold, and sort
ascending by cointegration p-value. -/
def PairsTradingStrategy.find_cointegrated_pairs (s : PairsTradingStrategy)
    (coint : List ℚ → List ℚ → Option ℚ) (adf : List ℚ → Option ℚ)
    (stocks : List (String × List ℚ)) (p_value_threshold : ℚ := 1/20) :
    List PairInfo :=
  sortByP ((pairsOf stocks).filterMap
    (processPair coint adf s.lookback p_value_threshold))

/-- The position column of the pairs strategy after the sequence of masked
assignments: 0 on the exit mask (assigned last, overriding), `vshort` on the
short-spread mask (overriding the long assignment), `vlong` on the
long-spread mask, else the initial 0. -/
def pairMasked (exitS shortS longS : List Bool) (vshort vlong : ℚ)
    (n : ℕ) : List ℚ :=
  (List.range n).map (fun t =>
    if exitS.getD t false then 0
    else if shortS.getD t false then vshort
    else if longS.getD t false then vlong else 0)

/-- The signal frame produced by `PairsTradingStrategy.generate_signals`. -/
structure PairSignals where
  stock1_price : List ℚ
  stock2_price : List ℚ
  spread : List ℚ
  zscore : List PVal
  long_spread : List Bool
  short_spread : List Bool
  exit_spread : List Bool
  position1 : List PVal
  position2 : List PVal

/-- `PairsTradingStrategy.generate_signals`: spread z-score over the
lookback window, masked assignments entering long spread
(`position1 = 1, position2 = -hedge_ratio`), short spread
(`position1 = -1, position2 = hedge_ratio`) and exit (both 0, overriding),
then `fillna(method='ffill').fillna(0)` on both position columns. -/
def PairsTradingStrategy.generate_signals (s : PairsTradingStrategy)
    (stock1 stock2 : List ℚ) (hedge_ratio : ℚ) : PairSignals :=
  let n := stock1.length
  let spread := List.zipWith (fun a b => a - hedge_ratio * b) stock1 stock2
  let sp := liftQ spread
  let z := zipWithPV PVal.div
    (zipWithPV PVal.sub sp (rollingMean s.lookback sp))
    (rollingStd s.lookback sp)
  let long_spread := z.map (fun v => PVal.ltb v (PVal.fin (-s.entry_zscore)))
  let short_spread := z.map (fun v => PVal.ltb (PVal.fin s.entry_zscore) v)
  let exit_spread := z.map (fun v =>
    PVal.ltb (PVal.abs v) (PVal.fin s.exit_zscore))
  let p1 := pairMasked exit_spread short_spread long_spread (-1) 1 n
  let p2 := pairMasked exit_spread short_spread long_spread hedge_ratio
    (-hedge_ratio) n
  ⟨stock1, stock2, spread, z, long_spread, short_spread, exit_spread,
    fillna0 (ffill (liftQ p1)), fillna0 (ffill (liftQ p2))⟩

end Trading

namespace Trading

/-! ## Backtest engine (`src/backtesting/engine.py`) -/

/-- Construction-time parameters of `BacktestEngine`. -/
structure BacktestEngine where
  initial_capital : ℚ := 100000
  commission : ℚ := 1/1000

/-- The portfolio ledger: one column per field, all aligned to the signal
index. -/
structure Portfolio where
  positions : List ℚ
  price : List ℚ
  holdings : List ℚ
  cash : List ℚ
  total : List ℚ
  returns : List PVal
  trades : List ℚ
  commission : List ℚ
  net_total : List ℚ
  net_returns : List PVal

/-- `BacktestEngine.run_backtest` on a close-price series and a position
series: `holdings = position · price · 1000`,
`cash = initial_capital - cumsum(Δposition · price · 1000)`,
`total = holdings + cash`, `trades = |Δposition|`,
`commission = trades · price · 1000 · commission_rate`,
`net_total = total - cumsum(commission)`, returns are percent changes. -/
def BacktestEngine.run_backtest (e : BacktestEngine)
    (close : List ℚ) (position : List ℚ) : Portfolio :=
  let holdings := List.zipWith (fun p c => p * c * 1000) position close
  let delta := diffFill0 position
  let cash := (cumsum (List.zipWith (fun d c => d * c * 1000) delta close)).map
    (fun s => e.initial_capital - s)
  let total := List.zipWith (fun h c => h + c) holdings cash
  let trades := delta.map PVal.qabs
  let commission := List.zipWith (fun tr c => tr * c * 1000 * e.commission)
    trades close
  let net_total := List.zipWith (fun a b => a - b) total (cumsum commission)
  ⟨position, close, holdings, cash, total, pctChange total, trades,
    commission, net_total, pctChange net_total⟩

/-- The last entry of a rational series as a `PVal` (`iloc[-1]`; undefined
on the empty series, which raises in pandas). -/
def lastPV (l : List ℚ) : PVal :=
  match l.getLast? with
  | some q => PVal.fin q
  | none => PVal.nan

/-- Minimum of a series, skipping undefined entries (`Series.min()`);
undefined when nothing remains. -/
def seriesMin (l : List PVal) : PVal :=
  match dropna l with
  | [] => PVal.nan
  | x :: rest => rest.foldl (fun a b => if PVal.ltb b a then b else a) x

/-- Cumulative product skipping undefined entries (`Series.cumprod()`):
undefined entries stay undefined, the running product ignores them. -/
def cumprodPV (l : List PVal) : List PVal :=
  (l.foldl (fun (st : PVal × List PVal) x =>
    match x with
    | PVal.nan => (st.1, PVal.nan :: st.2)
    | v => let y := PVal.mul st.1 v; (y, y :: st.2)) (PVal.fin 1, [])).2.reverse

/-- Cumulative maximum skipping undefined entries (`Series.cummax()`). -/
def cummaxPV (l : List PVal) : List PVal :=
  (l.foldl (fun (st : Option PVal × List PVal) x =>
    match x with
    | PVal.nan => (st.1, PVal.nan :: st.2)
    | v =>
      match st.1 with
      | none => (some v, v :: st.2)
      | some m => let y := PVal.maxPV m v; (some y, y :: st.2))
    (none, [])).2.reverse

/-- `BacktestEngine.calculate_max_drawdown`: minimum of
`(cumulative - running_max) / running_max` over the compounded equity
curve, times 100. -/
def BacktestEngine.calculate_max_drawdown (equity : List ℚ) : PVal :=
  let cumulative := cumprodPV ((pctChange equity).map
    (fun r => PVal.add (PVal.fin 1) r))
  let running_max := cummaxPV cumulative
  let dd := zipWithPV (fun c m => PVal.div (PVal.sub c m) m)
    cumulative running_max
  PVal.mul (seriesMin dd) (PVal.fin 100)

/-- Insertion into a `PVal` list sorted ascending by `leb`. -/
def insertPV (a : PVal) : List PVal → List PVal
  | [] => [a]
  | b :: l => if PVal.leb a b then a :: b :: l else b :: insertPV a l

/-- Insertion sort for `PVal` lists (used on series without undefined
entries, where `leb` is a total order). -/
def sortPV : List PVal → List PVal
  | [] => []
  | a :: l => insertPV a (sortPV l)

/-- The linear-interpolation percentile of `np.percentile` on a series with
no undefined entries, fraction `p` of the way through the sorted values. -/
def percentilePV (p : ℚ) (l : List PVal) : PVal :=
  match l with
  | [] => PVal.nan
  | _ =>
    let s : List PVal := sortPV l
    let h : ℚ := ((l.length : ℚ) - 1) * p
    let i : ℕ := (qfloor h).toNat
    let g : ℚ := h - (i : ℚ)
    PVal.add (s.getD i PVal.nan)
      (PVal.mul (PVal.fin g)
        (PVal.sub (s.getD (i+1) (s.getD i PVal.nan)) (s.getD i PVal.nan)))

/-- The summary metrics record of `BacktestEngine.calculate_metrics`. -/
structure Metrics where
  total_return : PVal
  annualized_return : PVal
  volatility : PVal
  sharpe_ratio : PVal
  max_drawdown : PVal
  win_rate : PVal
  profit_factor : PVal
  trades : ℚ
  var_95 : PVal
  cvar_95 : PVal

/-- `BacktestEngine.calculate_metrics` over a portfolio ledger.  All the
ratio denominators are plain float divisions: there is no guard for a zero
standard deviation or an empty negative-return set. -/
def BacktestEngine.calculate_metrics (e : BacktestEngine) (p : Portfolio) :
    Metrics :=
  let returns := dropna p.net_returns
  let m := seriesMean returns
  let sd := seriesStd returns
  let sqrt252 := PVal.sqrt (PVal.fin 252)
  { total_return := PVal.mul
      (PVal.sub (PVal.div (lastPV p.net_total) (PVal.fin e.initial_capital))
        (PVal.fin 1)) (PVal.fin 100)
    annualized_return := PVal.mul (PVal.mul m (PVal.fin 252)) (PVal.fin 100)
    volatility := PVal.mul (PVal.mul sd sqrt252) (PVal.fin 100)
    sharpe_ratio := PVal.div (PVal.mul m (PVal.fin 252))
      (PVal.mul sd sqrt252)
    max_drawdown := BacktestEngine.calculate_max_drawdown p.net_total
    win_rate := PVal.mul
      (PVal.qdiv ((returns.filter (fun x => PVal.ltb (PVal.fin 0) x)).length : ℚ)
        (returns.length : ℚ)) (PVal.fin 100)
    profit_factor := PVal.div
      (sumPV (returns.filter (fun x => PVal.ltb (PVal.fin 0) x)))
      (PVal.abs (sumPV (returns.filter (fun x => PVal.ltb x (PVal.fin 0)))))
    trades := p.trades.sum / 2
    var_95 := PVal.mul (percentilePV (1/20) returns) (PVal.fin 100)
    cvar_95 := PVal.mul
      (seriesMean (returns.filter
        (fun x => PVal.leb x (percentilePV (1/20) returns)))) (PVal.fin 100) }

/-! ## Risk metrics (`src/risk/metrics.py`) -/

end Trading

namespace Trading

/-! ## Series access lemmas -/

/-- Reading an index-defined series. -/
theorem getD_rangeMap {α : Type} (f : ℕ → α) (n t : ℕ) (d : α) :
    ((List.range n).map f).getD t d = if t < n then f t else d := by
  by_cases h : t < n
  · rw [List.getD_eq_getElem _ _ (by simpa using h)]
    simp [h]
  · rw [List.getD_eq_default _ _ (by simpa using Nat.le_of_not_lt h)]
    simp [h]

/-- Reading a mapped series in bounds, with arbitrary defaults. -/
theorem getD_map_lt {α β : Type} (f : α → β) (l : List α) (t : ℕ) (d : β)
    (d' : α) (h : t < l.length) : (l.map f).getD t d = f (l.getD t d') := by
  rw [List.getD_eq_getElem _ _ (by simpa using h), List.getD_eq_getElem _ _ h,
    List.getElem_map]

/-- Reading a pointwise combination of two aligned series in bounds. -/
theorem getD_zipWith_lt {α β γ : Type} (f : α → β → γ) (a : List α)
    (b : List β) (t : ℕ) (da : α) (db : β) (dc : γ) (h1 : t < a.length)
    (h2 : t < b.length) :
    (List.zipWith f a b).getD t dc = f (a.getD t da) (b.getD t db) := by
  rw [List.getD_eq_getElem _ _ (by simp [List.length_zipWith]; omega),
    List.getD_eq_getElem _ _ h1, List.getD_eq_getElem _ _ h2,
    List.getElem_zipWith]

/-- A list prefix sum is the finite sum of its entries. -/
theorem sum_take_eq_sum_range (l : List ℚ) (k : ℕ) :
    (l.take k).sum = ∑ i ∈ Finset.range k, l.getD i 0 := by
  induction l generalizing k with
  | nil => simp
  | cons x xs ih =>
    cases k with
    | zero => simp
    | succ k =>
      rw [List.take_succ_cons, List.sum_cons, ih, Finset.sum_range_succ']
      simp [add_comm]

/-- Reading the cumulative-sum series in bounds. -/
theorem getD_cumsum (l : List ℚ) (t : ℕ) (h : t < l.length) :
    (cumsum l).getD t 0 = ∑ i ∈ Finset.range (t+1), l.getD i 0 := by
  rw [cumsum, getD_rangeMap, if_pos h, sum_take_eq_sum_range]

/-- The per-period position change of the specification: zero in the first
period, else the first difference. -/
def posDelta (position : List ℚ) (i : ℕ) : ℚ :=
  if i = 0 then 0 else position.getD i 0 - position.getD (i-1) 0

/-- Reading the `diff().fillna(0)` series in bounds. -/
theorem getD_diffFill0 (l : List ℚ) (t : ℕ) (h : t < l.length) :
    (diffFill0 l).getD t 0 = posDelta l t := by
  rw [diffFill0, getD_rangeMap]
  simp [h, posDelta]

/-- Length bookkeeping for the ledger combinators. -/
theorem length_cumsum (l : List ℚ) : (cumsum l).length = l.length := by
  simp [cumsum]

theorem length_diffFill0 (l : List ℚ) : (diffFill0 l).length = l.length := by
  simp [diffFill0]

/-- `qabs` agrees with the mathlib absolute value. -/
theorem qabs_eq_abs (q : ℚ) : PVal.qabs q = |q| := by
  rcases lt_or_ge q 0 with h | h
  · rw [PVal.qabs, if_pos h, abs_of_neg h]
  · rw [PVal.qabs, if_neg (not_lt.mpr h), abs_of_nonneg h]

end Trading

namespace Trading

/-! ## Claim C1: ledger invariants of `run_backtest` -/

/-- Claim C1: for every price series and every position series of equal
length and every in-range timestamp `t`, the ledger built by
`BacktestEngine.run_backtest` satisfies `total = holdings + cash`,
`net_total = total - cumulative(commission)`, `trades = |Δposition|` with
the first period Δ treated as 0, `commission = trades · price · 1000 ·
commission_rate`, and `cash = initial_capital - cumulative(Δposition ·
price · 1000)`, with unit size 1000. -/
theorem C1_ledger_invariants (e : BacktestEngine) (close position : List ℚ)
    (hlen : close.length = position.length) (t : ℕ)
    (ht : t < position.length) :
    (e.run_backtest close position).total.getD t 0 =
      (e.run_backtest close position).holdings.getD t 0 +
      (e.run_backtest close position).cash.getD t 0 ∧
    (e.run_backtest close position).net_total.getD t 0 =
      (e.run_backtest close position).total.getD t 0 -
      ∑ i ∈ Finset.range (t+1),
        (e.run_backtest close position).commission.getD i 0 ∧
    (e.run_backtest close position).trades.getD t 0 =
      |posDelta position t| ∧
    (e.run_backtest close position).commission.getD t 0 =
      (e.run_backtest close position).trades.getD t 0 *
        close.getD t 0 * 1000 * e.commission ∧
    (e.run_backtest close position).cash.getD t 0 =
      e.initial_capital -
      ∑ i ∈ Finset.range (t+1),
        posDelta position i * close.getD i 0 * 1000 := by
  have hc : t < close.length := hlen ▸ ht
  have lz : ∀ (a b : List ℚ),
      (List.zipWith (fun x y => x * y * 1000) a b).length =
        min a.length b.length := by
    intro a b; simp
  refine ⟨?_, ?_, ?_, ?_, ?_⟩
  · rw [BacktestEngine.run_backtest]
    rw [getD_zipWith_lt _ _ _ t 0 0 0 (by simp; omega)
      (by simp [length_cumsum, length_diffFill0]; omega)]
  · rw [BacktestEngine.run_backtest]
    rw [getD_zipWith_lt _ _ _ t 0 0 0
      (by simp [length_cumsum, length_diffFill0]; omega)
      (by simp [length_cumsum, length_diffFill0]; omega)]
    rw [getD_cumsum _ _ (by simp [length_diffFill0]; omega)]
  · rw [BacktestEngine.run_backtest]
    rw [getD_map_lt _ _ _ _ 0 (by simp [length_diffFill0]; omega),
      getD_diffFill0 _ _ ht, qabs_eq_abs]
  · rw [BacktestEngine.run_backtest]
    rw [getD_zipWith_lt _ _ _ t 0 0 0 (by simp [length_diffFill0]; omega)
      (by omega)]
  · rw [BacktestEngine.run_backtest]
    rw [getD_map_lt _ _ _ _ 0
      (by simp [length_cumsum, length_diffFill0]; omega),
      getD_cumsum _ _ (by simp [length_diffFill0]; omega)]
    congr 1
    apply Finset.sum_congr rfl
    intro i hi
    have hi' : i < position.length := by
      have := Finset.mem_range.mp hi; omega
    rw [getD_zipWith_lt _ _ _ i 0 0 0 (by simp [length_diffFill0]; omega)
      (by omega), getD_diffFill0 _ _ hi']

/-- Witness for C1 at a concrete engine, price series, position series and
timestamp. -/
theorem C1_ledger_invariants_witness :
    ((⟨100000, 1/1000⟩ : BacktestEngine).run_backtest [50, 50, 50]
      [0, 1, 0]).cash.getD 2 0 =
      (100000 : ℚ) -
      ∑ i ∈ Finset.range 3,
        posDelta [0, 1, 0] i * [(50 : ℚ), 50, 50].getD i 0 * 1000 :=
  (C1_ledger_invariants ⟨100000, 1/1000⟩ [50, 50, 50] [0, 1, 0]
    (by decide) 2 (by decide)).2.2.2.2

/-! ## Claim C10: the trades metric halves the summed per-period trades -/

/-- Claim C10: for every ledger produced by `run_backtest`, the `trades`
field of `calculate_metrics` equals half the sum over all timestamps of the
per-period trades `|Δposition|` — a unit round trip counts as one trade. -/
theorem C10_trades_halved (e : BacktestEngine) (close position : List ℚ)
    (hlen : close.length = position.length) :
    (e.calculate_metrics (e.run_backtest close position)).trades =
      (∑ i ∈ Finset.range position.length, |posDelta position i|) / 2 := by
  rw [BacktestEngine.calculate_metrics, BacktestEngine.run_backtest]
  have h1 : ((diffFill0 position).map PVal.qabs).sum =
      ∑ i ∈ Finset.range position.length, |posDelta position i| := by
    have h2 : ((diffFill0 position).map PVal.qabs).sum =
        (((diffFill0 position).map PVal.qabs).take
          ((diffFill0 position).map PVal.qabs).length).sum := by
      rw [List.take_of_length_le (le_refl _)]
    rw [h2, sum_take_eq_sum_range]
    simp only [List.length_map, length_diffFill0]
    apply Finset.sum_congr rfl
    intro i hi
    have hi' : i < position.length := Finset.mem_range.mp hi
    rw [getD_map_lt _ _ _ _ 0 (by simp [length_diffFill0]; omega),
      getD_diffFill0 _ _ hi', qabs_eq_abs]
  simpa using congrArg (fun x => x / (2:ℚ)) h1

/-- Witness for C10 at a concrete engine, price series and position
series: one entry plus one exit count as a single trade. -/
theorem C10_trades_halved_witness :
    ((⟨100000, 1/1000⟩ : BacktestEngine).calculate_metrics
      ((⟨100000, 1/1000⟩ : BacktestEngine).run_backtest [50, 50, 50]
        [0, 1, 0])).trades =
      (∑ i ∈ Finset.range 3, |posDelta [0, 1, 0] i|) / 2 :=
  C10_trades_halved ⟨100000, 1/1000⟩ [50, 50, 50] [0, 1, 0] (by decide)

end Trading

namespace Trading

/-! ## Claim C8: zero-denominator guards of the risk metrics -/

end Trading

namespace Trading

/-! ## Claim C6: half-life defaults -/

/-- Counterexample to claim C6: the claim asserts that `calculate_half_life`
returns the default 30 whenever the fitted slope β is nonnegative, but on
the spread `[1, 2, 4, 8]` the fit gives `β = 1 ≥ 0` and the code returns
`max(1, int(-log(2)/1)) = 1`, not 30. -/
theorem C6_counterexample :
    polyfitSlope ([(1 : ℚ), 2, 4, 8].dropLast)
        (List.zipWith (fun a b => a - b) ([(1 : ℚ), 2, 4, 8].drop 1)
          [(1 : ℚ), 2, 4, 8].dropLast) = some 1 ∧
    PairsTradingStrategy.calculate_half_life [1, 2, 4, 8] = 1 ∧
    PairsTradingStrategy.calculate_half_life [1, 2, 4, 8] ≠ 30 := by
  refine ⟨by decide, by decide, by decide⟩

/-- Claim C6 amended: `calculate_half_life` returns the default 30 when
there are fewer than 2 usable points (spread length below 3), when the
fitted slope is exactly 0, and on the caught-exception path (the only
inputs where `np.polyfit` raises: an empty or identically-zero lag
column); for any nonzero fitted slope β — including the pseudo-inverse
slope numpy returns with a `RankWarning` on a constant nonzero lag — it
returns `-log(2)/β` truncated toward zero and floored at 1, and hence for
every β > 0 (no mean reversion) the result is 1, not 30. -/
theorem C6_half_life_amended (spread : List ℚ) (b : ℚ) :
    (spread.length < 3 →
      PairsTradingStrategy.calculate_half_life spread = 30) ∧
    (polyfitSlope spread.dropLast
        (List.zipWith (fun a b => a - b) (spread.drop 1) spread.dropLast) =
        some 0 →
      PairsTradingStrategy.calculate_half_life spread = 30) ∧
    (polyfitSlope spread.dropLast
        (List.zipWith (fun a b => a - b) (spread.drop 1) spread.dropLast) =
        none →
      PairsTradingStrategy.calculate_half_life spread = 30) ∧
    (¬ spread.length < 3 →
      polyfitSlope spread.dropLast
        (List.zipWith (fun a b => a - b) (spread.drop 1) spread.dropLast) =
        some b →
      b ≠ 0 →
      PairsTradingStrategy.calculate_half_life spread =
        max 1 (truncZ (-ln2F / b))) ∧
    (¬ spread.length < 3 →
      polyfitSlope spread.dropLast
        (List.zipWith (fun a b => a - b) (spread.drop 1) spread.dropLast) =
        some b →
      0 < b →
      PairsTradingStrategy.calculate_half_life spread = 1) := by
  have hlen : spread.dropLast.length < 2 ↔ spread.length < 3 := by
    rw [List.length_dropLast]; omega
  refine ⟨?_, ?_, ?_, ?_, ?_⟩
  · intro h
    rw [PairsTradingStrategy.calculate_half_life, if_pos (hlen.mpr h)]
  · intro h
    rw [PairsTradingStrategy.calculate_half_life]
    by_cases h3 : spread.dropLast.length < 2
    · rw [if_pos h3]
    · rw [if_neg h3, h]
      simp
  · intro h
    rw [PairsTradingStrategy.calculate_half_life]
    by_cases h3 : spread.dropLast.length < 2
    · rw [if_pos h3]
    · rw [if_neg h3, h]
  · intro h3 hs hb
    rw [PairsTradingStrategy.calculate_half_life,
      if_neg (fun hx => h3 (hlen.mp hx)), hs]
    simp [hb]
  · intro h3 hs hb
    rw [PairsTradingStrategy.calculate_half_life,
      if_neg (fun hx => h3 (hlen.mp hx)), hs]
    have hbne : b ≠ 0 := ne_of_gt hb
    have hln : (0 : ℚ) < ln2F := by decide
    have hq : -ln2F / b < 0 := div_neg_of_neg_of_pos (by linarith) hb
    have h4 : 0 ≤ qfloor (-(-ln2F / b)) := by
      rw [qfloor]
      refine Int.fdiv_nonneg ?_ (Int.ofNat_nonneg _)
      have hpos : (0 : ℚ) < -(-ln2F / b) := by linarith
      exact le_of_lt (Rat.num_pos.mpr hpos)
    simp only [hbne, if_false, truncZ, if_neg (not_le.mpr hq)]
    omega

/-- Witness for C6 amended: the short spread `[5]` takes the default
branch; the spread `[8, 4, 2, 1]` has slope `-1/2 < 0`, giving half-life
`max(1, int(log(2)/(1/2))) = max(1, 1) = 1`; and the spread `[1, 1, 1, 6]`
has a rank-deficient fit whose pseudo-inverse slope is `5/6 > 0`, so the
result is 1, not the default 30. -/
theorem C6_half_life_amended_witness :
    PairsTradingStrategy.calculate_half_life [5] = 30 ∧
    PairsTradingStrategy.calculate_half_life [8, 4, 2, 1] =
      max 1 (truncZ (-ln2F / (-1/2))) ∧
    PairsTradingStrategy.calculate_half_life [1, 1, 1, 6] = 1 :=
  ⟨(C6_half_life_amended [5] 0).1 (by decide),
   (C6_half_life_amended [8, 4, 2, 1] (-1/2)).2.2.2.1 (by decide)
     (by decide) (by decide),
   (C6_half_life_amended [1, 1, 1, 6] (5/6)).2.2.2.2 (by decide)
     (by decide) (by decide)⟩

end Trading

namespace Trading

/-! ## Claim C7: ordering and filtering of the pair scan -/

/-- Membership in a stable insertion. -/
theorem mem_insertByP (x a : PairInfo) (l : List PairInfo) :
    x ∈ insertByP a l ↔ x = a ∨ x ∈ l := by
  induction l with
  | nil => simp [insertByP]
  | cons b l ih =>
    rw [insertByP]
    by_cases h : a.p_value ≤ b.p_value
    · simp [h]
    · simp only [if_neg h, List.mem_cons, ih]
      tauto

/-- Insertion preserves sortedness by `p_value`. -/
theorem sorted_insertByP (a : PairInfo) (l : List PairInfo)
    (h : List.Sorted (fun x y : PairInfo => x.p_value ≤ y.p_value) l) :
    List.Sorted (fun x y : PairInfo => x.p_value ≤ y.p_value)
      (insertByP a l) := by
  induction l with
  | nil => simp [insertByP]
  | cons b l ih =>
    rw [List.sorted_cons] at h
    rw [insertByP]
    by_cases hab : a.p_value ≤ b.p_value
    · rw [if_pos hab, List.sorted_cons]
      refine ⟨?_, List.sorted_cons.mpr h⟩
      intro y hy
      rcases List.mem_cons.mp hy with rfl | hy
      · exact hab
      · exact le_trans hab (h.1 y hy)
    · rw [if_neg hab, List.sorted_cons]
      refine ⟨?_, ih h.2⟩
      intro y hy
      rcases (mem_insertByP y a l).mp hy with rfl | hy
      · exact le_of_not_le hab
      · exact h.1 y hy


/-- The stable sort by `p_value` sorts. -/
theorem sorted_sortByP (l : List PairInfo) :
    List.Sorted (fun x y : PairInfo => x.p_value ≤ y.p_value) (sortByP l) := by
  induction l with
  | nil => simp [sortByP]
  | cons a l ih => exact sorted_insertByP a (sortByP l) ih

/-- The stable sort by `p_value` preserves membership. -/
theorem mem_sortByP (x : PairInfo) (l : List PairInfo) :
    x ∈ sortByP l ↔ x ∈ l := by
  induction l with
  | nil => simp [sortByP]
  | cons a l ih =>
    rw [sortByP, mem_insertByP, ih]
    simp

/-- A surviving pair carries the cointegration p-value that passed the
threshold test. -/
theorem processPair_p_value_lt (coint : List ℚ → List ℚ → Option ℚ)
    (adf : List ℚ → Option ℚ) (lookback : ℕ) (thr : ℚ)
    (p : (String × List ℚ) × (String × List ℚ)) (x : PairInfo)
    (hx : processPair coint adf lookback thr p = some x) :
    x.p_value < thr := by
  rw [processPair] at hx
  split at hx
  · exact absurd hx (by simp)
  · dsimp only at hx
    split at hx
    · exact absurd hx (by simp)
    · split at hx
      · exact absurd hx (by simp)
      · rename_i pv hpv
        split at hx
        · rename_i hlt
          split at hx
          · exact absurd hx (by simp)
          · split at hx
            · exact absurd hx (by simp)
            · split at hx
              · cases hx
                exact hlt
              · exact absurd hx (by simp)
        · exact absurd hx (by simp)

/-- Claim C7: for every symbol map, threshold, lookback and pair of
statistical-test oracles, the sequence returned by
`find_cointegrated_pairs` is sorted ascending by `p_value` (it never
decreases between consecutive elements), and every returned pair has
cointegration `p_value` strictly below the threshold. -/
theorem C7_pairs_sorted_filtered (s : PairsTradingStrategy)
    (coint : List ℚ → List ℚ → Option ℚ) (adf : List ℚ → Option ℚ)
    (stocks : List (String × List ℚ)) (thr : ℚ) :
    List.Sorted (fun x y : PairInfo => x.p_value ≤ y.p_value)
      (s.find_cointegrated_pairs coint adf stocks thr) ∧
    ∀ x ∈ s.find_cointegrated_pairs coint adf stocks thr,
      x.p_value < thr := by
  constructor
  · exact sorted_sortByP _
  · intro x hx
    rw [PairsTradingStrategy.find_cointegrated_pairs, mem_sortByP] at hx
    obtain ⟨p, _, hp⟩ := List.mem_filterMap.mp hx
    exact processPair_p_value_lt coint adf s.lookback thr p x hp

end Trading

namespace Trading

/-! ## Position-column lemmas shared by C2, C4 and C9 -/

/-- Forward fill leaves a series of finite values unchanged. -/
theorem ffillGo_liftQ (l : List ℚ) : ∀ v, ffillGo v (liftQ l) = liftQ l := by
  induction l with
  | nil => intro v; rfl
  | cons x xs ih =>
    intro v
    show PVal.fin x :: ffillGo (PVal.fin x) (liftQ xs) = _
    rw [ih]
    rfl

/-- Zero filling leaves a series of finite values unchanged. -/
theorem fillna0_liftQ (l : List ℚ) : fillna0 (liftQ l) = liftQ l := by
  induction l with
  | nil => rfl
  | cons x xs ih =>
    show (if PVal.fin x = PVal.nan then PVal.fin 0 else PVal.fin x) ::
      fillna0 (liftQ xs) = _
    rw [if_neg (by simp), ih]
    rfl

/-- The `fillna(method='ffill').fillna(0)` pipeline is the identity on a
series of finite values. -/
theorem liftQ_pipeline (l : List ℚ) : fillna0 (ffill (liftQ l)) = liftQ l := by
  rw [ffill, ffillGo_liftQ, fillna0_liftQ]

/-- Reading a lifted series, with matching defaults. -/
theorem getD_liftQ (l : List ℚ) (t : ℕ) :
    (liftQ l).getD t (PVal.fin 0) = PVal.fin (l.getD t 0) := by
  by_cases h : t < l.length
  · exact getD_map_lt _ _ _ _ 0 h
  · rw [List.getD_eq_default _ _ (by simpa [liftQ] using Nat.le_of_not_lt h),
      List.getD_eq_default _ _ (Nat.le_of_not_lt h)]

theorem length_liftQ (l : List ℚ) : (liftQ l).length = l.length := by
  simp [liftQ]

theorem length_rollingApply (w : ℕ) (f : List ℚ → PVal) (l : List PVal) :
    (rollingApply w f l).length = l.length := by
  simp [rollingApply]

theorem length_rollingMean (w : ℕ) (l : List PVal) :
    (rollingMean w l).length = l.length := by
  simp [rollingMean, length_rollingApply]

theorem length_rollingStd (w : ℕ) (l : List PVal) :
    (rollingStd w l).length = l.length := by
  rw [rollingStd]
  split <;> simp [length_rollingApply]

theorem length_calculate_zscore (s : MeanReversionStrategy)
    (prices : List ℚ) :
    (s.calculate_zscore prices).length = prices.length := by
  simp [MeanReversionStrategy.calculate_zscore, zipWithPV, length_liftQ,
    length_rollingMean, length_rollingStd]

/-- A rolling aggregate is undefined while the window has not filled. -/
theorem rollingApply_warmup (w : ℕ) (f : List ℚ → PVal) (l : List PVal)
    (t : ℕ) (ht : t < l.length) (hw : t + 1 < w) :
    (rollingApply w f l).getD t PVal.nan = PVal.nan := by
  rw [rollingApply, getD_rangeMap, if_pos ht, if_pos hw]

theorem PVal.sub_nan (x : PVal) : PVal.sub x PVal.nan = PVal.nan := by
  cases x <;> rfl

theorem PVal.nan_div (y : PVal) : PVal.div PVal.nan y = PVal.nan := by
  cases y <;> rfl

/-- The z-score is undefined while the lookback window has not filled. -/
theorem calculate_zscore_warmup (s : MeanReversionStrategy)
    (prices : List ℚ) (t : ℕ) (ht : t < prices.length)
    (hw : t + 1 < s.lookback) :
    (s.calculate_zscore prices).getD t PVal.nan = PVal.nan := by
  rw [MeanReversionStrategy.calculate_zscore]
  rw [zipWithPV, getD_zipWith_lt PVal.div _ _ t PVal.nan PVal.nan PVal.nan
    (by simp [zipWithPV, length_liftQ, length_rollingMean]; omega)
    (by rw [length_rollingStd, length_liftQ]; exact ht)]
  rw [zipWithPV, getD_zipWith_lt PVal.sub _ _ t PVal.nan PVal.nan PVal.nan
    (by rw [length_liftQ]; exact ht)
    (by rw [length_rollingMean, length_liftQ]; exact ht)]
  rw [rollingMean, rollingApply_warmup _ _ _ _
    (by rw [length_liftQ]; exact ht) hw, PVal.sub_nan, PVal.nan_div]

/-- The possible values of the entry column. -/
theorem mrEntries_getD_cases (longE shortE : List Bool) (n t : ℕ) :
    (mrEntries longE shortE n).getD t 0 = 0 ∨
    (mrEntries longE shortE n).getD t 0 = 1 ∨
    (mrEntries longE shortE n).getD t 0 = -1 := by
  rw [mrEntries, getD_rangeMap]
  split_ifs <;> simp

/-- An exit assignment either zeroes a row or leaves it unchanged. -/
theorem mrExit_getD_cases (mask : List Bool) (sgn : ℚ → Prop)
    [DecidablePred sgn] (q : List ℚ) (n t : ℕ) :
    (mrExit mask sgn q n).getD t 0 = 0 ∨
    (mrExit mask sgn q n).getD t 0 = q.getD t 0 := by
  rw [mrExit, getD_rangeMap]
  split
  · split
    · exact Or.inl rfl
    · exact Or.inr rfl
  · exact Or.inl rfl

/-- The position column of the mean-reversion strategy, read through the
no-op fill pipeline. -/
theorem mr_position_getD (s : MeanReversionStrategy) (prices : List ℚ)
    (t : ℕ) :
    (s.generate_signals prices).position.getD t (PVal.fin 0) =
    PVal.fin ((mrExit (s.generate_signals prices).short_exit
      (fun x => x < 0)
      (mrExit (s.generate_signals prices).long_exit (fun x => 0 < x)
        (mrEntries (s.generate_signals prices).long_entry
          (s.generate_signals prices).short_entry prices.length)
        prices.length) prices.length).getD t 0) := by
  simp only [MeanReversionStrategy.generate_signals]
  rw [liftQ_pipeline, getD_liftQ]

/-- Without an entry firing at `t`, the position at `t` is 0 (the column is
never carried forward from earlier rows). -/
theorem mr_flat_of_no_entry (s : MeanReversionStrategy) (prices : List ℚ)
    (t : ℕ)
    (hl : (s.generate_signals prices).long_entry.getD t false = false)
    (hs : (s.generate_signals prices).short_entry.getD t false = false) :
    (s.generate_signals prices).position.getD t (PVal.fin 0) = PVal.fin 0 := by
  rw [mr_position_getD]
  have h2 : (mrEntries (s.generate_signals prices).long_entry
      (s.generate_signals prices).short_entry prices.length).getD t 0 = 0 := by
    rw [mrEntries, getD_rangeMap]
    split
    · rw [hl, hs]
      simp
    · rfl
  have h3 : (mrExit (s.generate_signals prices).long_exit (fun x => 0 < x)
      (mrEntries (s.generate_signals prices).long_entry
        (s.generate_signals prices).short_entry prices.length)
      prices.length).getD t 0 = 0 := by
    rcases mrExit_getD_cases (s.generate_signals prices).long_exit
        (fun x => 0 < x)
        (mrEntries (s.generate_signals prices).long_entry
          (s.generate_signals prices).short_entry prices.length)
        prices.length t with h | h
    · exact h
    · rw [h, h2]
  rcases mrExit_getD_cases (s.generate_signals prices).short_exit
      (fun x => x < 0)
      (mrExit (s.generate_signals prices).long_exit (fun x => 0 < x)
        (mrEntries (s.generate_signals prices).long_entry
          (s.generate_signals prices).short_entry prices.length)
        prices.length) prices.length t with h | h
  · rw [h]
  · rw [h, h3]

end Trading

namespace Trading

/-! ## Claim C2: mean-reversion position dynamics -/

/-- The entry masks are false while the window has not filled (the z-score
is undefined there and comparisons with an undefined value are false). -/
theorem mr_masks_false_warmup (s : MeanReversionStrategy) (prices : List ℚ)
    (t : ℕ) (ht : t < prices.length) (hw : t + 1 < s.lookback) :
    (s.generate_signals prices).long_entry.getD t false = false ∧
    (s.generate_signals prices).short_entry.getD t false = false := by
  have hz := calculate_zscore_warmup s prices t ht hw
  constructor <;>
  · simp only [MeanReversionStrategy.generate_signals]
    rw [getD_map_lt _ _ _ _ PVal.nan
      (by rw [length_calculate_zscore]; exact ht), hz]
    rfl

/-- Counterexample to claim C2: with lookback 5, entry z-score 1.4 and exit
z-score 0.1 on the prices `[8, 9, 11, 9, 13, 13]`, a short position is
entered at period 4 (z = 1.5 > 1.4), and at period 5 the short exit
condition has not fired (z = 1, not below 0.1) — yet the position at
period 5 is 0, not the carried-forward -1 the claim requires: the
`fillna(ffill)` step never fires because the column has no missing values,
so positions do not persist between transitions. -/
theorem C2_counterexample :
    ((⟨5, 7/5, 1/10⟩ : MeanReversionStrategy).generate_signals
        [8, 9, 11, 9, 13, 13]).short_entry.getD 4 false = true ∧
    ((⟨5, 7/5, 1/10⟩ : MeanReversionStrategy).generate_signals
        [8, 9, 11, 9, 13, 13]).position.getD 4 (PVal.fin 0) =
      PVal.fin (-1) ∧
    ((⟨5, 7/5, 1/10⟩ : MeanReversionStrategy).generate_signals
        [8, 9, 11, 9, 13, 13]).short_exit.getD 5 false = false ∧
    ((⟨5, 7/5, 1/10⟩ : MeanReversionStrategy).generate_signals
        [8, 9, 11, 9, 13, 13]).short_entry.getD 5 false = false ∧
    ((⟨5, 7/5, 1/10⟩ : MeanReversionStrategy).generate_signals
        [8, 9, 11, 9, 13, 13]).position.getD 5 (PVal.fin 0) =
      PVal.fin 0 := by
  refine ⟨by decide, by decide, by decide, by decide, by decide⟩

/-- Claim C2 amended: in `MeanReversionStrategy.generate_signals` the
position is always defined and lies in {0, 1, -1}; it is 0 before the
lookback window fills (in particular the initial state is flat); and a
position does NOT persist after its entry transition: at every timestamp at
which no entry condition fires the position is 0, even when the
corresponding exit condition has not fired. -/
theorem C2_position_amended (s : MeanReversionStrategy) (prices : List ℚ)
    (t : ℕ) :
    ((s.generate_signals prices).position.getD t (PVal.fin 0) = PVal.fin 0 ∨
     (s.generate_signals prices).position.getD t (PVal.fin 0) = PVal.fin 1 ∨
     (s.generate_signals prices).position.getD t (PVal.fin 0) =
       PVal.fin (-1)) ∧
    ((s.generate_signals prices).long_entry.getD t false = false →
     (s.generate_signals prices).short_entry.getD t false = false →
     (s.generate_signals prices).position.getD t (PVal.fin 0) =
       PVal.fin 0) ∧
    (t < prices.length → t + 1 < s.lookback →
     (s.generate_signals prices).position.getD t (PVal.fin 0) =
       PVal.fin 0) := by
  refine ⟨?_, fun hl hs => mr_flat_of_no_entry s prices t hl hs, ?_⟩
  · rw [mr_position_getD]
    rcases mrExit_getD_cases (s.generate_signals prices).short_exit
        (fun x => x < 0)
        (mrExit (s.generate_signals prices).long_exit (fun x => 0 < x)
          (mrEntries (s.generate_signals prices).long_entry
            (s.generate_signals prices).short_entry prices.length)
          prices.length) prices.length t with h | h
    · rw [h]; exact Or.inl rfl
    · rw [h]
      rcases mrExit_getD_cases (s.generate_signals prices).long_exit
          (fun x => 0 < x)
          (mrEntries (s.generate_signals prices).long_entry
            (s.generate_signals prices).short_entry prices.length)
          prices.length t with h2 | h2
      · rw [h2]; exact Or.inl rfl
      · rw [h2]
        rcases mrEntries_getD_cases (s.generate_signals prices).long_entry
            (s.generate_signals prices).short_entry prices.length t
          with h3 | h3 | h3 <;> rw [h3]
        · exact Or.inl rfl
        · exact Or.inr (Or.inl rfl)
        · exact Or.inr (Or.inr rfl)
  · intro ht hw
    obtain ⟨hl, hs⟩ := mr_masks_false_warmup s prices t ht hw
    exact mr_flat_of_no_entry s prices t hl hs

/-- Witness for C2 amended: on the counterexample inputs, period 3 is
inside the warm-up window and flat. -/
theorem C2_position_amended_witness :
    ((⟨5, 7/5, 1/10⟩ : MeanReversionStrategy).generate_signals
        [8, 9, 11, 9, 13, 13]).position.getD 3 (PVal.fin 0) = PVal.fin 0 :=
  (C2_position_amended ⟨5, 7/5, 1/10⟩ [8, 9, 11, 9, 13, 13] 3).2.2
    (by decide) (by decide)

end Trading

namespace Trading

/-! ## Claim C9: hedge relation of the pairs positions -/

/-- Both position columns of the pairs strategy read through the no-op fill
pipeline. -/
theorem pair_positions_getD (s : PairsTradingStrategy)
    (stock1 stock2 : List ℚ) (hedge_ratio : ℚ) (t : ℕ) :
    (s.generate_signals stock1 stock2 hedge_ratio).position1.getD t
        (PVal.fin 0) =
      PVal.fin ((pairMasked
        (s.generate_signals stock1 stock2 hedge_ratio).exit_spread
        (s.generate_signals stock1 stock2 hedge_ratio).short_spread
        (s.generate_signals stock1 stock2 hedge_ratio).long_spread
        (-1) 1 stock1.length).getD t 0) ∧
    (s.generate_signals stock1 stock2 hedge_ratio).position2.getD t
        (PVal.fin 0) =
      PVal.fin ((pairMasked
        (s.generate_signals stock1 stock2 hedge_ratio).exit_spread
        (s.generate_signals stock1 stock2 hedge_ratio).short_spread
        (s.generate_signals stock1 stock2 hedge_ratio).long_spread
        hedge_ratio (-hedge_ratio) stock1.length).getD t 0) := by
  constructor <;>
  · simp only [PairsTradingStrategy.generate_signals]
    rw [liftQ_pipeline, getD_liftQ]

/-- The second masked column is -hedge_ratio times the first, pointwise. -/
theorem pairMasked_hedge (exitS shortS longS : List Bool) (h : ℚ)
    (n t : ℕ) :
    (pairMasked exitS shortS longS h (-h) n).getD t 0 =
      -h * (pairMasked exitS shortS longS (-1) 1 n).getD t 0 := by
  rw [pairMasked, pairMasked, getD_rangeMap, getD_rangeMap]
  by_cases hn : t < n
  · rw [if_pos hn, if_pos hn]
    split_ifs <;> ring
  · rw [if_neg hn, if_neg hn]
    ring

/-- Claim C9: for every pair of price series and every hedge ratio, the two
position series of `PairsTradingStrategy.generate_signals` satisfy
`position2 = -hedge_ratio · position1` at every timestamp; on an in-range
exit row both are 0, on an in-range short-spread row (without exit)
`position1 = -1` and `position2 = hedge_ratio`, and on an in-range
long-spread row (without short or exit) `position1 = 1` and
`position2 = -hedge_ratio`. -/
theorem C9_pairs_hedge_invariant (s : PairsTradingStrategy)
    (stock1 stock2 : List ℚ) (hedge_ratio : ℚ) (t : ℕ) :
    ((s.generate_signals stock1 stock2 hedge_ratio).position2.getD t
        (PVal.fin 0) =
      PVal.mul (PVal.fin (-hedge_ratio))
        ((s.generate_signals stock1 stock2 hedge_ratio).position1.getD t
          (PVal.fin 0))) ∧
    (t < stock1.length →
     (s.generate_signals stock1 stock2 hedge_ratio).exit_spread.getD t
        false = true →
     (s.generate_signals stock1 stock2 hedge_ratio).position1.getD t
        (PVal.fin 0) = PVal.fin 0 ∧
     (s.generate_signals stock1 stock2 hedge_ratio).position2.getD t
        (PVal.fin 0) = PVal.fin 0) ∧
    (t < stock1.length →
     (s.generate_signals stock1 stock2 hedge_ratio).exit_spread.getD t
        false = false →
     (s.generate_signals stock1 stock2 hedge_ratio).short_spread.getD t
        false = true →
     (s.generate_signals stock1 stock2 hedge_ratio).position1.getD t
        (PVal.fin 0) = PVal.fin (-1) ∧
     (s.generate_signals stock1 stock2 hedge_ratio).position2.getD t
        (PVal.fin 0) = PVal.fin hedge_ratio) ∧
    (t < stock1.length →
     (s.generate_signals stock1 stock2 hedge_ratio).exit_spread.getD t
        false = false →
     (s.generate_signals stock1 stock2 hedge_ratio).short_spread.getD t
        false = false →
     (s.generate_signals stock1 stock2 hedge_ratio).long_spread.getD t
        false = true →
     (s.generate_signals stock1 stock2 hedge_ratio).position1.getD t
        (PVal.fin 0) = PVal.fin 1 ∧
     (s.generate_signals stock1 stock2 hedge_ratio).position2.getD t
        (PVal.fin 0) = PVal.fin (-hedge_ratio)) := by
  obtain ⟨hp1, hp2⟩ := pair_positions_getD s stock1 stock2 hedge_ratio t
  refine ⟨?_, ?_, ?_, ?_⟩
  · rw [hp1, hp2, pairMasked_hedge]
    rfl
  · intro ht hx
    rw [hp1, hp2, pairMasked, pairMasked, getD_rangeMap, getD_rangeMap,
      if_pos ht, if_pos ht, hx]
    simp
  · intro ht hx hs
    rw [hp1, hp2, pairMasked, pairMasked, getD_rangeMap, getD_rangeMap,
      if_pos ht, if_pos ht, hx, hs]
    simp
  · intro ht hx hs hl
    rw [hp1, hp2, pairMasked, pairMasked, getD_rangeMap, getD_rangeMap,
      if_pos ht, if_pos ht, hx, hs, hl]
    simp

/-- Witness for C9 at a concrete pair of series: with lookback 2,
entry 1/2 and exit 1/10 on stocks `[0, 10]` and `[0, 0]` with hedge ratio
2, the short-spread mask fires at period 1 and the positions are
`(-1, 2)`. -/
theorem C9_pairs_hedge_invariant_witness :
    ((⟨2, 1/2, 1/10⟩ : PairsTradingStrategy).generate_signals [0, 10]
        [0, 0] 2).position1.getD 1 (PVal.fin 0) = PVal.fin (-1) ∧
    ((⟨2, 1/2, 1/10⟩ : PairsTradingStrategy).generate_signals [0, 10]
        [0, 0] 2).position2.getD 1 (PVal.fin 0) = PVal.fin 2 :=
  (C9_pairs_hedge_invariant ⟨2, 1/2, 1/10⟩ [0, 10] [0, 0] 2 1).2.2.1
    (by decide) (by decide) (by decide)

end Trading

namespace Trading

/-! ## Claim C4: definedness of the position series -/

theorem length_pctChangeK (k : ℕ) (l : List ℚ) :
    (pctChangeK k l).length = l.length := by
  simp [pctChangeK]

theorem PVal.mul_nan (x : PVal) : PVal.mul x PVal.nan = PVal.nan := by
  cases x <;> rfl

/-- The momentum position at an in-range timestamp, as the product of the
signal and the capped conviction size. -/
theorem momentum_position_getD (m : MomentumStrategy) (prices : List ℚ)
    (t : ℕ) (ht : t < prices.length) :
    (m.generate_signals prices).position.getD t PVal.nan =
      PVal.mul (PVal.fin ((m.generate_signals prices).signal.getD t 0))
        (PVal.minPV
          (PVal.div
            (PVal.abs ((m.generate_signals
              prices).vol_adjusted_momentum.getD t PVal.nan))
            (PVal.fin 2))
          (PVal.fin 1)) := by
  simp only [MomentumStrategy.generate_signals, momentumFinish]
  rw [getD_zipWith_lt _ _ _ t 0 PVal.nan PVal.nan
    (by
      simp [zipWithPV, MomentumStrategy.calculate_momentum,
        length_pctChangeK, length_rollingStd, pctChange]
      omega)
    (by
      simp [zipWithPV, MomentumStrategy.calculate_momentum,
        length_pctChangeK, length_rollingStd, pctChange]
      omega)]

/-- The momentum sizing product is defined whenever the vol-adjusted
momentum is: an infinite conviction is capped at the full size 1 by
`np.minimum` and a finite one gives a finite product. -/
theorem momentum_size_fin (s : ℚ) (v : PVal) (hv : v ≠ PVal.nan) :
    PVal.mul (PVal.fin s)
      (PVal.minPV (PVal.div (PVal.abs v) (PVal.fin 2)) (PVal.fin 1)) ≠
    PVal.nan := by
  cases v with
  | nan => exact absurd rfl hv
  | fin q =>
    show PVal.mul (PVal.fin s)
      (PVal.minPV (PVal.qdiv (PVal.qabs q) 2) (PVal.fin 1)) ≠ _
    rw [PVal.qdiv, if_neg (by norm_num)]
    show PVal.mul (PVal.fin s)
      (if PVal.ltb (PVal.fin 1) (PVal.fin (PVal.qabs q / 2))
       then PVal.fin 1 else PVal.fin (PVal.qabs q / 2)) ≠ _
    split_ifs <;> simp [PVal.mul]
  | inf =>
    show PVal.mul (PVal.fin s) (PVal.fin 1) ≠ _
    simp [PVal.mul]
  | ninf =>
    show PVal.mul (PVal.fin s) (PVal.fin 1) ≠ _
    simp [PVal.mul]

/-- Counterexample to claim C4: on the one-period price series `[100]`, the
momentum position at timestamp 0 is undefined (NaN): the signal is 0 but
the sizing factor `min(|vol_adjusted_momentum| / 2, 1)` is NaN during
warm-up, and `0 * NaN = NaN`; the momentum pipeline has no forward-carry
step at all. -/
theorem C4_counterexample :
    ((⟨20, 5⟩ : MomentumStrategy).generate_signals [100]).position.getD 0
      (PVal.fin 0) = PVal.nan := by
  decide

/-- Claim C4 amended: the mean-reversion and pairs-trading position series
contain no undefined value at any timestamp (their columns are built from
the initial 0 by masked assignments of literals, so the trailing
forward-carry is a no-op); the momentum position, by contrast, is undefined
exactly where the vol-adjusted momentum is undefined, in both directions:
`signal × min(|vam|/2, 1)` multiplies by NaN exactly there (an infinite
conviction is capped to the finite full size), so in particular the
position is undefined during warm-up and defined everywhere else. -/
theorem C4_position_definedness :
    (∀ (s : MeanReversionStrategy) (prices : List ℚ) (t : ℕ),
      ((s.generate_signals prices).position.getD t
        (PVal.fin 0)).isFin = true) ∧
    (∀ (s : PairsTradingStrategy) (stock1 stock2 : List ℚ)
      (hedge_ratio : ℚ) (t : ℕ),
      ((s.generate_signals stock1 stock2 hedge_ratio).position1.getD t
        (PVal.fin 0)).isFin = true ∧
      ((s.generate_signals stock1 stock2 hedge_ratio).position2.getD t
        (PVal.fin 0)).isFin = true) ∧
    (∀ (m : MomentumStrategy) (prices : List ℚ) (t : ℕ),
      t < prices.length →
      ((m.generate_signals prices).position.getD t PVal.nan = PVal.nan ↔
       (m.generate_signals prices).vol_adjusted_momentum.getD t PVal.nan =
         PVal.nan)) := by
  refine ⟨?_, ?_, ?_⟩
  · intro s prices t
    rw [mr_position_getD]
    rfl
  · intro s stock1 stock2 hedge_ratio t
    obtain ⟨hp1, hp2⟩ := pair_positions_getD s stock1 stock2 hedge_ratio t
    rw [hp1, hp2]
    exact ⟨rfl, rfl⟩
  · intro m prices t ht
    rw [momentum_position_getD m prices t ht]
    constructor
    · intro h
      by_contra hv
      exact momentum_size_fin _ _ hv h
    · intro hv
      rw [hv]
      rfl

/-- Witness for C4 amended: the mean-reversion position on the
counterexample prices is everywhere defined, and the momentum position on
`[100]` is undefined at the undefined vol-adjusted-momentum timestamp 0. -/
theorem C4_position_definedness_witness :
    (((⟨5, 7/5, 1/10⟩ : MeanReversionStrategy).generate_signals
      [8, 9, 11, 9, 13, 13]).position.getD 4 (PVal.fin 0)).isFin = true ∧
    ((⟨20, 5⟩ : MomentumStrategy).generate_signals [100]).position.getD 0
      PVal.nan = PVal.nan :=
  ⟨C4_position_definedness.1 ⟨5, 7/5, 1/10⟩ [8, 9, 11, 9, 13, 13] 4,
   (C4_position_definedness.2.2 ⟨20, 5⟩ [100] 0 (by decide)).mpr
     (by decide)⟩

end Trading

namespace Trading

/-! ## Claim C5: unguarded ratio denominators in `calculate_metrics` -/

/-- A commission-free engine used to exhibit the unguarded divisions. -/
def engineC5 : BacktestEngine := ⟨100000, 0⟩

/-- A ledger whose net equity doubles every period: the net returns after
dropping the undefined first entry are `[1, 1]`, a zero-volatility series
with no negative entry. -/
def portfolioC5 : Portfolio := engineC5.run_backtest [100, 300, 700] [1, 1, 1]

/-- Counterexample to claim C5: on a zero-volatility return series the
Sharpe ratio of `calculate_metrics` is the IEEE infinity produced by the
unguarded division `(mean·252)/(std·sqrt 252)`, and with no negative
returns the profit factor is likewise `+inf` — a silent infinity, not an
explicit undefined-ratio sentinel distinct from the numeric domain. -/
theorem C5_counterexample :
    dropna portfolioC5.net_returns = [PVal.fin 1, PVal.fin 1] ∧
    seriesStd (dropna portfolioC5.net_returns) = PVal.fin 0 ∧
    (dropna portfolioC5.net_returns).filter
      (fun x => PVal.ltb x (PVal.fin 0)) = [] ∧
    (engineC5.calculate_metrics portfolioC5).sharpe_ratio = PVal.inf ∧
    (engineC5.calculate_metrics portfolioC5).profit_factor = PVal.inf := by
  refine ⟨by decide, by decide, by decide, by decide, by decide⟩

/-- Claim C5 amended: `calculate_metrics` guards neither ratio.  For every
ledger whose defined net returns have standard deviation exactly zero and a
positive mean (a zero-volatility series), the Sharpe ratio is the IEEE
`+inf` of the unguarded division by `std·sqrt(252) = 0`; and for every
ledger whose defined net returns contain no negative entry and sum to a
positive value over the positive entries, the profit factor is the IEEE
`+inf` of the unguarded division by the zero sum of negative returns.  No
explicit undefined-ratio sentinel exists in either case. -/
theorem C5_unguarded_ratios (e : BacktestEngine) (p : Portfolio)
    (m s : ℚ) :
    (seriesStd (dropna p.net_returns) = PVal.fin 0 →
     seriesMean (dropna p.net_returns) = PVal.fin m → 0 < m →
     (e.calculate_metrics p).sharpe_ratio = PVal.inf) ∧
    ((dropna p.net_returns).filter (fun x => PVal.ltb x (PVal.fin 0)) =
        [] →
     sumPV ((dropna p.net_returns).filter
       (fun x => PVal.ltb (PVal.fin 0) x)) = PVal.fin s → 0 < s →
     (e.calculate_metrics p).profit_factor = PVal.inf) := by
  constructor
  · intro hstd hmean hm
    simp only [BacktestEngine.calculate_metrics, hstd, hmean]
    have hs252 : PVal.sqrt (PVal.fin 252) = PVal.fin (ratSqrt 252) := by
      rw [PVal.sqrt, if_neg (by norm_num)]
    rw [hs252]
    show PVal.div (PVal.fin (m * 252)) (PVal.fin (0 * ratSqrt 252)) = _
    rw [zero_mul, PVal.div, PVal.qdiv, if_pos rfl,
      if_neg (by positivity), if_pos (by positivity)]
  · intro hneg hpos hs
    simp only [BacktestEngine.calculate_metrics, hneg, hpos]
    show PVal.div (PVal.fin s) (PVal.abs (sumPV [])) = _
    have hz : PVal.abs (sumPV []) = PVal.fin 0 := by decide
    rw [hz, PVal.div, PVal.qdiv, if_pos rfl, if_neg (by positivity),
      if_pos (by positivity)]

/-- Witness for C5 amended at the concrete doubling ledger (net returns
`[1, 1]`: zero volatility, positive mean 1, no negative entry, positive
sum 2). -/
theorem C5_unguarded_ratios_witness :
    (engineC5.calculate_metrics portfolioC5).sharpe_ratio = PVal.inf ∧
    (engineC5.calculate_metrics portfolioC5).profit_factor = PVal.inf :=
  ⟨(C5_unguarded_ratios engineC5 portfolioC5 1 2).1 (by decide)
      (by decide) (by decide),
   (C5_unguarded_ratios engineC5 portfolioC5 1 2).2 (by decide)
      (by decide) (by decide)⟩

end Trading

namespace Trading

/-! ## Claim C3: the momentum threshold is over the raw series -/

/-- The momentum pipeline as the amended specification words it: identical
to the source except that the description of the 252-period rolling
80th-percentile threshold names the raw vol-adjusted-momentum series; the
signal is +1 above the threshold, -1 below its negation (the later masked
assignment winning where both hold), 0 otherwise, and the position is
`signal × min(|vol_adjusted_momentum| / 2, 1)`. -/
def momentumSignalsSpecRaw (m : MomentumStrategy) (prices : List ℚ) :
    MomSignals :=
  let returns := pctChange prices
  let momentum := m.calculate_momentum prices
  let volatility := rollingStd m.lookback returns
  let vam := zipWithPV PVal.div momentum volatility
  let thr := rollingApply 252 (fun qs => PVal.fin (quantileLin (4/5) qs)) vam
  let signal : List ℚ := (List.range vam.length).map (fun t =>
    if PVal.ltb (vam.getD t PVal.nan) (PVal.neg (thr.getD t PVal.nan)) then -1
    else if PVal.ltb (thr.getD t PVal.nan) (vam.getD t PVal.nan) then 1
    else 0)
  let position := List.zipWith
    (fun s v => PVal.mul (PVal.fin s)
      (PVal.minPV (PVal.div (PVal.abs v) (PVal.fin 2)) (PVal.fin 1)))
    signal vam
  ⟨prices, returns, momentum, volatility, vam, thr, signal, position⟩

/-- The per-cycle gross growth factor of the 20-period-cyclic price series
used against claim C3. -/
def growthC3 : ℚ := 14487291/16000000

/-- Partial products of the cycle of per-period growth factors
`[13/10, 7/10, 21/20, 19/20, 21/20, 19/20, 1, …, 1]`.  Every 20-period
window of the resulting returns has mean 0 and sample variance exactly
1/100, so the rolling standard deviation is the rational 1/10 and the
vol-adjusted momentum is the constant `10·(growthC3 - 1) < 0` once
defined. -/
def cpreC3 : List ℚ :=
  [1, 13/10, 91/100, 1911/2000, 36309/40000, 762489/800000] ++
  List.replicate 14 growthC3

/-- A 272-period price series that is 20-period cyclic up to the factor
`growthC3` per cycle, long enough for the 252-period rolling threshold to
produce one defined entry (at index 271). -/
def pricesC3 : List ℚ :=
  (List.range 272).map (fun t => 100 * growthC3^(t/20) * cpreC3.getD (t%20) 1)

/-- Counterexample to claim C3: the claim computes the rolling
80th-percentile threshold over the absolute value of the
vol-adjusted-momentum series, but the source computes it over the raw
series.  On `pricesC3` the vol-adjusted momentum is a negative constant
wherever defined, so the source threshold at index 271 is that negative
constant and the signal fires short (`vam < -thr`), while under the
claimed absolute-value threshold the signal is 0 — the resulting positions
differ. -/
theorem C3_counterexample :
    ((⟨20, 5⟩ : MomentumStrategy).generate_signals
        pricesC3).momentum_threshold.getD 271 PVal.nan =
      PVal.fin (-1512709/1600000) ∧
    (momentumSignalsSpecAbs ⟨20, 5⟩ pricesC3).momentum_threshold.getD 271
        PVal.nan = PVal.fin (1512709/1600000) ∧
    ((⟨20, 5⟩ : MomentumStrategy).generate_signals pricesC3).signal.getD
        271 0 = -1 ∧
    (momentumSignalsSpecAbs ⟨20, 5⟩ pricesC3).signal.getD 271 0 = 0 ∧
    ((⟨20, 5⟩ : MomentumStrategy).generate_signals pricesC3).position.getD
        271 PVal.nan ≠
      (momentumSignalsSpecAbs ⟨20, 5⟩ pricesC3).position.getD 271
        PVal.nan := by
  decide

/-- Claim C3 amended: in `MomentumStrategy.generate_signals` the rolling
252-period 80th-percentile threshold is computed over the raw
vol-adjusted-momentum series (not its absolute value); the signal at each
timestamp is -1 when the vol-adjusted momentum falls below the negated
threshold, +1 when it exceeds the threshold (the -1 assignment overriding
when both hold), 0 otherwise; and the final position is
`signal × min(|vol_adjusted_momentum| / 2, 1)`. -/
theorem C3_momentum_raw_threshold (m : MomentumStrategy)
    (prices : List ℚ) :
    m.generate_signals prices = momentumSignalsSpecRaw m prices := by
  rfl

end Trading
